import Mathlib

/-!
Shallow embedding of the vericard-scan-pro aggregation core.

Sources embedded:
- `src/apps/web/src/lib/errors/index.ts` : `retry`, `CircuitBreaker`
- `src/unnamed/part_007` : `MarketDataAggregator.getMarketData`,
  `analyzeMarketData`, `calculateTrend`
- `src/unnamed/part_008` : `SimpleCacheManager` (`get`, `set`, `wrap`)
- `src/apps/web/src/lib/card-database/CardDatabaseManager.ts` :
  `findBestMatch`, `lookupCard`, `validateCard`

Numbers are modelled with `ℚ` (JS number arithmetic, idealized as exact),
timestamps with `Int` (milliseconds). `Math.round x` in JS is
`⌊x + 1/2⌋` (round half toward positive infinity), embedded as `jsRound`.
-/

/-- JS `Math.round`: round half toward positive infinity. -/
def jsRound (q : ℚ) : Int := (q + 1/2).floor

/-- JS `Math.floor` on a rational. -/
def jsFloor (q : ℚ) : Int := q.floor

/-- A completed sale, as returned by a market-data provider
(`Sale` in `src/apps/web/src/services/MarketDataService.ts`). -/
structure Sale where
  price : ℚ
  date : Int
  source : String
  condition : String
  title : String
  deriving Repr, DecidableEq

/-- Market trend classification. -/
inductive Trend where
  | rising
  | falling
  | stable
  deriving Repr, DecidableEq

/-- The aggregate produced by `MarketDataAggregator.analyzeMarketData`
(`MarketData` in `MarketDataService.ts`). -/
structure MarketData where
  recentSales : List Sale
  averagePrice : Int
  medianPrice : ℚ
  priceRangeMin : ℚ
  priceRangeMax : ℚ
  velocity : Int
  trend : Trend
  lastUpdated : Int
  dataSource : String
  deriving Repr, DecidableEq

/-- Embedding of `MarketDataAggregator.calculateTrend` (src/unnamed/part_007:458-472).
`sales` is the merged list sorted newest first.  The JS code computes
`changePercent = ((recentAvg - olderAvg) / olderAvg) * 100` and classifies
`> 10` as rising, `< -10` as falling.  (Division by an `olderAvg` of zero
yields Infinity/NaN in JS; in this embedding `ℚ` division by zero is 0, and
all theorems about the trend assume strictly positive prices, where the two
semantics coincide.) -/
def calculateTrend (sales : List Sale) : Trend :=
  if sales.length < 5 then .stable
  else
    let k : Nat := min 5 (sales.length / 2)
    let recentAvg : ℚ := ((sales.take k).map Sale.price).sum / (k : ℚ)
    let olderAvg : ℚ := ((sales.drop (sales.length - k)).map Sale.price).sum / (k : ℚ)
    let changePercent : ℚ := ((recentAvg - olderAvg) / olderAvg) * 100
    if changePercent > 10 then .rising
    else if changePercent < -10 then .falling
    else .stable

/-- The zero-valued aggregate returned when the merged sale list is empty
(src/unnamed/part_007:421-432). -/
def zeroAggregate (now : Int) : MarketData :=
  { recentSales := []
    averagePrice := 0
    medianPrice := 0
    priceRangeMin := 0
    priceRangeMax := 0
    velocity := 0
    trend := .stable
    lastUpdated := now
    dataSource := "none" }

/-- Embedding of `MarketDataAggregator.analyzeMarketData` (src/unnamed/part_007:420-456).
`sales` is the merged list sorted newest first, `providerNames` the names of
all registered providers, `now` the value of `Date.now()`.  JS
`prices.sort((a, b) => a - b)` is embedded as insertion sort with `≤`. -/
def analyzeMarketData (sales : List Sale) (providerNames : List String)
    (now : Int) : MarketData :=
  if h : sales = [] then zeroAggregate now
  else
    let prices : List ℚ := List.insertionSort (· ≤ ·) (sales.map Sale.price)
    let averagePrice : Int := jsRound (prices.sum / (prices.length : ℚ))
    let medianPrice : ℚ := prices.getD (prices.length / 2) 0
    let oldestSale : Sale := sales.getLast h
    let daysCovered : ℚ := max 1 (((now - oldestSale.date : Int) : ℚ) / 86400000)
    let velocity : Int := jsRound (((sales.length : ℚ) / daysCovered) * 30)
    { recentSales := sales.take 20
      averagePrice := averagePrice
      medianPrice := medianPrice
      priceRangeMin := prices.getD 0 0
      priceRangeMax := prices.getD (prices.length - 1) 0
      velocity := velocity
      trend := calculateTrend sales
      lastUpdated := now
      dataSource := String.intercalate ", " providerNames }

/-- One registered market-data provider as seen by one `getMarketData`
request: its `name` and the outcome of its `searchSales` call (already
including the provider's own retry/fallback behaviour).  `.error` models a
rejected promise. -/
structure ProviderStub where
  name : String
  searchSales : Except Unit (List Sale)
  deriving Repr

/-- Newest-first order on sales (JS comparator `(a, b) => b.date - a.date`). -/
def Sale.newerEq (a b : Sale) : Prop := b.date ≤ a.date

instance : DecidableRel Sale.newerEq := fun a b => by
  unfold Sale.newerEq; infer_instance

instance : IsTotal Sale Sale.newerEq :=
  ⟨fun a b => (le_total b.date a.date).imp id id⟩

instance : IsTrans Sale Sale.newerEq :=
  ⟨fun _ _ _ hab hbc => le_trans hbc hab⟩

/-- One settled provider fan-out call: the sale list on resolution, `[]` when
the promise rejected (the per-provider `.catch` at part_007:313-316). -/
def caughtSales (p : ProviderStub) : List Sale :=
  match p.searchSales with
  | .ok s => s
  | .error _ => []

/-- Embedding of `MarketDataAggregator.getMarketData` (src/unnamed/part_007:295-348) on a
cache miss path: each provider's `searchSales` promise is settled, a rejection
is caught and replaced by `[]`, the arrays are flattened and sorted newest
first, and the result of `analyzeMarketData` is returned.  The `Except` result
type records whether the call throws to the caller; every provider failure is
swallowed by the per-provider `.catch`, so the body never throws (the outer
`catch`/`throw` is unreachable).  The cache/subscriber side effects do not
affect the returned value and are omitted. -/
def getMarketData (providers : List ProviderStub) (cached : Option MarketData)
    (now : Int) : Except Unit MarketData :=
  match cached with
  | some md => .ok md
  | none =>
    let allSalesArrays : List (List Sale) := providers.map caughtSales
    let allSales : List Sale := List.insertionSort Sale.newerEq allSalesArrays.flatten
    .ok (analyzeMarketData allSales (providers.map ProviderStub.name) now)

/-- Circuit breaker state (`'closed' | 'open' | 'half-open'` in
`src/apps/web/src/lib/errors/index.ts:227`). -/
inductive CBState where
  | closed
  | opened
  | halfOpen
  deriving Repr, DecidableEq

/-- Embedding of `CircuitBreaker` instance fields
(src/apps/web/src/lib/errors/index.ts:224-232). -/
structure CircuitBreaker where
  threshold : Nat
  timeout : Int
  failures : Nat
  lastFailTime : Int
  state : CBState
  deriving Repr, DecidableEq

/-- A freshly constructed `new CircuitBreaker()` with the default
`threshold = 5` and `timeout = 60000`. -/
def CircuitBreaker.init : CircuitBreaker :=
  { threshold := 5, timeout := 60000, failures := 0, lastFailTime := 0
    state := .closed }

/-- Embedding of `CircuitBreaker.onSuccess` (index.ts:256-259). -/
def CircuitBreaker.onSuccess (cb : CircuitBreaker) : CircuitBreaker :=
  { cb with failures := 0, state := .closed }

/-- Embedding of `CircuitBreaker.onFailure` (index.ts:261-268): increment the counter,
record the failure time, and open the breaker when the counter reaches the
threshold. -/
def CircuitBreaker.onFailure (cb : CircuitBreaker) (now : Int) : CircuitBreaker :=
  { cb with
    failures := cb.failures + 1
    lastFailTime := now
    state := if cb.threshold ≤ cb.failures + 1 then .opened else cb.state }

/-- Observable outcome of one `CircuitBreaker.call`: either the call is
rejected with the circuit-open `VeriCardError` before the wrapped function
runs, or the wrapped function is invoked and succeeds/fails. -/
inductive CallOutcome where
  | circuitOpenError
  | ran (success : Bool)
  deriving Repr, DecidableEq

/-- Embedding of `CircuitBreaker.call` (index.ts:234-254).  `now` is `Date.now()` and
`fnSucceeds` tells whether the wrapped function, if invoked, resolves or
rejects.  Returns the observable outcome and the updated breaker. -/
def CircuitBreaker.call (cb : CircuitBreaker) (now : Int) (fnSucceeds : Bool) :
    CallOutcome × CircuitBreaker :=
  if cb.state = .opened ∧ now - cb.lastFailTime < cb.timeout then
    (.circuitOpenError, cb)
  else
    let cb1 := if cb.state = .opened then { cb with state := .halfOpen } else cb
    if fnSucceeds then (.ran true, cb1.onSuccess)
    else (.ran false, cb1.onFailure now)

/-- Options record of `retry`
(src/apps/web/src/lib/errors/index.ts:182-196), with the documented
defaults. -/
structure RetryOptions where
  attempts : Nat := 3
  delay : ℚ := 1000
  maxDelay : ℚ := 30000
  factor : ℚ := 2
  deriving Repr

/-- Observable trace of one `retry(fn, options)` run: the settled result,
the total number of invocations of `fn`, the waits slept between attempts
(in order), and the attempt numbers at which `onRetry` fired (in order). -/
structure RetryTrace (α : Type) where
  result : Except Nat α
  invocations : Nat
  waits : List ℚ
  retryCallbacks : List Nat
  deriving Repr

/-- The attempt loop of `retry` (index.ts:200-218).  `fn k` is the outcome of
the k-th invocation of the wrapped function (1-indexed); errors are modelled
as `Nat` codes.  `attempt` is the current attempt number and `fuel` the number
of attempts still allowed (`fuel = attempts - attempt + 1`), so `fuel = 1`
is the JS `attempt === attempts` case, which rethrows the last error.  The
`fuel = 0` case is unreachable when `attempts ≥ 1`. -/
def retryGo (fn : Nat → Except Nat α) (opts : RetryOptions) :
    Nat → Nat → RetryTrace α
  | _, 0 => ⟨.error 0, 0, [], []⟩
  | attempt, 1 =>
    match fn attempt with
    | .ok v => ⟨.ok v, attempt, [], []⟩
    | .error e => ⟨.error e, attempt, [], []⟩
  | attempt, fuel + 2 =>
    match fn attempt with
    | .ok v => ⟨.ok v, attempt, [], []⟩
    | .error _ =>
      let waitTime : ℚ := min (opts.delay * opts.factor ^ (attempt - 1)) opts.maxDelay
      let rest := retryGo fn opts (attempt + 1) (fuel + 1)
      ⟨rest.result, rest.invocations, waitTime :: rest.waits,
        attempt :: rest.retryCallbacks⟩

/-- Embedding of `retry(fn, options)` (index.ts:180-221): run the attempt loop starting at
attempt 1 with `options.attempts` attempts allowed. -/
def retryRun (fn : Nat → Except Nat α) (opts : RetryOptions) : RetryTrace α :=
  retryGo fn opts 1 opts.attempts

/-- An opaque JS value stored in the cache, just rich enough to decide JS
truthiness (`if (cached)` in `SimpleCacheManager.wrap`). -/
inductive JSValue where
  | num (q : ℚ)
  | str (s : String)
  | bool (b : Bool)
  | null
  deriving Repr, DecidableEq

/-- JS truthiness of a `JSValue`: `0`, `''`, `false` and `null` are falsy. -/
def JSValue.truthy : JSValue → Bool
  | .num q => q != 0
  | .str s => s != ""
  | .bool b => b
  | .null => false

/-- One entry of `SimpleCacheManager`'s `Map`
(src/unnamed/part_008:384): the stored value and its absolute expiry time. -/
structure CacheItem where
  value : JSValue
  expiry : Int
  deriving Repr, DecidableEq

/-- The `Map<string, {value, expiry}>` backing `SimpleCacheManager`,
modelled as an association list (first binding wins). -/
def CacheMap := List (String × CacheItem)

/-- Embedding of `Map.get`. -/
def CacheMap.find (c : CacheMap) (key : String) : Option CacheItem :=
  match c with
  | [] => none
  | (k, it) :: rest => if k = key then some it else CacheMap.find rest key

/-- Embedding of `Map.set`: replace the binding if present, else append. -/
def CacheMap.setKey (c : CacheMap) (key : String) (it : CacheItem) : CacheMap :=
  match c with
  | [] => [(key, it)]
  | (k, old) :: rest =>
    if k = key then (k, it) :: rest else (k, old) :: CacheMap.setKey rest key it

/-- Embedding of `Map.delete`. -/
def CacheMap.deleteKey (c : CacheMap) (key : String) : CacheMap :=
  match c with
  | [] => []
  | (k, old) :: rest =>
    if k = key then rest else (k, old) :: CacheMap.deleteKey rest key

/-- Embedding of `SimpleCacheManager.get` (src/unnamed/part_008:386-396): a missing key is
a miss; an entry with `now > expiry` is deleted and is a miss; otherwise the
stored value is returned.  Returns the value (or `none` for a miss) and the
updated store. -/
def SimpleCacheManager.get (c : CacheMap) (key : String) (now : Int) :
    Option JSValue × CacheMap :=
  match c.find key with
  | none => (none, c)
  | some it =>
    if now > it.expiry then (none, c.deleteKey key)
    else (some it.value, c)

/-- Embedding of `SimpleCacheManager.set` (src/unnamed/part_008:398-403): store the value
with expiry `Date.now() + ttl`. -/
def SimpleCacheManager.set (c : CacheMap) (key : String) (v : JSValue)
    (ttl : Int) (now : Int) : CacheMap :=
  c.setKey key ⟨v, now + ttl⟩

/-- Embedding of `SimpleCacheManager.wrap` (src/unnamed/part_008:413-420): return the
cached value if it is truthy; otherwise invoke the factory, store its value,
and return it.  `factoryVal` is the value the factory would produce; the
returned `Bool` records whether the factory was invoked. -/
def SimpleCacheManager.wrap (c : CacheMap) (key : String) (factoryVal : JSValue)
    (ttl : Int) (now : Int) : JSValue × CacheMap × Bool :=
  let res := SimpleCacheManager.get c key now
  match res.1 with
  | some v =>
    if v.truthy then (v, res.2, false)
    else (factoryVal, SimpleCacheManager.set res.2 key factoryVal ttl now, true)
  | none => (factoryVal, SimpleCacheManager.set res.2 key factoryVal ttl now, true)

/-- The lookup target of `CardDatabaseManager.lookupCard`: a
`Partial<CardDetails>`.  `none` models an absent (or JS-falsy, e.g. empty
string) field, which the scoring loop skips. -/
structure CardQuery where
  player : Option String
  year : Option Int
  set : Option String
  cardNumber : Option String
  manufacturer : Option String
  isRookie : Option Bool
  isAutograph : Option Bool
  deriving Repr, DecidableEq

/-- A candidate row from a card-database provider (`CardDatabaseEntry`),
restricted to the fields `findBestMatch` reads. -/
structure CardDatabaseEntry where
  player : String
  year : Int
  set : String
  cardNumber : String
  manufacturer : String
  isRookie : Bool
  isAutograph : Bool
  deriving Repr, DecidableEq

/-- One scoring clause of `findBestMatch`
(`if (target.f && card.f === target.f) score += w`): the bonus `w` is added
only when the target supplies the field and the candidate's value equals it.
`o` is the target field, `v` the candidate's value. -/
def fieldBonus {α : Type} [DecidableEq α] (o : Option α) (v : α) (w : Int) : Int :=
  match o with
  | some p => if v = p then w else 0
  | none => 0

/-- The per-candidate score of `CardDatabaseManager.findBestMatch`
(CardDatabaseManager.ts:556-570): +10 for player/year/set exact matches,
+5 for card number / manufacturer, +2 for each matching boolean attribute,
each counted only when the target supplies the field. -/
def matchScore (target : CardQuery) (card : CardDatabaseEntry) : Int :=
  fieldBonus target.player card.player 10
  + fieldBonus target.year card.year 10
  + fieldBonus target.set card.set 10
  + fieldBonus target.cardNumber card.cardNumber 5
  + fieldBonus target.manufacturer card.manufacturer 5
  + fieldBonus target.isRookie card.isRookie 2
  + fieldBonus target.isAutograph card.isAutograph 2

/-- Embedding of `CardDatabaseManager.findBestMatch` (CardDatabaseManager.ts:552-575):
score every candidate, stable-sort descending by score, and accept the first
candidate iff its score is strictly greater than 10.  The head of a stable
descending sort is the first candidate attaining the maximal score, embedded
directly as a fold that replaces the best only on a strictly greater score. -/
def findBestMatch (cards : List CardDatabaseEntry) (target : CardQuery) :
    Option CardDatabaseEntry :=
  match cards with
  | [] => none
  | c :: rest =>
    let best := rest.foldl
      (fun b c' => if matchScore target b < matchScore target c' then c' else b) c
    if 10 < matchScore target best then some best else none

/-- Embedding of `CardDatabaseManager.lookupCard` (CardDatabaseManager.ts:398-436) on a
cache miss: iterate the providers in registration order; a provider whose
`searchCards` rejects is logged and skipped; the first provider whose
candidates produce a best match ends the loop; otherwise return `null`.
`providerResults` is each provider's `searchCards(query)` outcome; the
cache/local-save side effects do not affect the returned value and are
omitted. -/
def lookupCard (providerResults : List (Except Unit (List CardDatabaseEntry)))
    (target : CardQuery) : Option CardDatabaseEntry :=
  match providerResults with
  | [] => none
  | .error _ :: rest => lookupCard rest target
  | .ok cards :: rest =>
    match findBestMatch cards target with
    | some m => some m
    | none => lookupCard rest target

/-- A provider's answer to `validateCard` (`ValidationResult` fields the
aggregation reads). -/
structure ValidationVerdict where
  isValid : Bool
  confidence : ℚ
  issues : List String
  deriving Repr, DecidableEq

/-- The default verdict substituted by the per-provider
`.catch(() => ({ isValid: false, confidence: 0, issues: [] }))`
(CardDatabaseManager.ts:484). -/
def defaultVerdict : ValidationVerdict := ⟨false, 0, []⟩

/-- The aggregated result of `CardDatabaseManager.validateCard`. -/
structure AggregatedValidation where
  isValid : Bool
  confidence : ℚ
  issues : List String
  suggestions : List String
  deriving Repr, DecidableEq

/-- Embedding of `[...new Set(allIssues)]` (CardDatabaseManager.ts:506): deduplicate
keeping the first occurrence of each string, in order. -/
def dedupFirst (l : List String) : List String :=
  go [] l
where
  go (seen : List String) : List String → List String
    | [] => []
    | x :: xs => if x ∈ seen then go seen xs else x :: go (x :: seen) xs

/-- One settled provider validation: a resolved verdict is kept, a rejected
one is replaced by the default verdict (the per-provider `.catch`). -/
def caughtVerdict (o : Except Unit ValidationVerdict) : ValidationVerdict :=
  match o with
  | .ok v => v
  | .error _ => defaultVerdict

/-- Embedding of `CardDatabaseManager.validateCard` (CardDatabaseManager.ts:480-509):
settle every provider's validation in parallel, replacing a rejection by the
default verdict; the card is valid if any verdict is valid; the confidence is
the summed confidence divided by the number of registered providers; the
issues are deduplicated; fixed suggestions are added when invalid.
`outcomes` is each registered provider's `validateCard(details)` outcome. -/
def validateCard (outcomes : List (Except Unit ValidationVerdict)) :
    AggregatedValidation :=
  let validations : List ValidationVerdict := outcomes.map caughtVerdict
  let validCount : Nat := (validations.filter (·.isValid)).length
  let totalConfidence : ℚ := (validations.map (·.confidence)).sum
  let allIssues : List String := (validations.map (·.issues)).flatten
  let isValid : Bool := 0 < validCount
  let confidence : ℚ := totalConfidence / (outcomes.length : ℚ)
  let suggestions : List String :=
    if isValid then []
    else ["Check card number and variant spelling",
          "Verify manufacturer name (Topps vs. Topps Chrome)",
          "Ensure year is correct"]
  ⟨isValid, confidence, dedupFirst allIssues, suggestions⟩

/-! Spec-side definitions, written from the claims' wording, to be compared
with the embeddings above. -/

/-- Mean price of a list of sales (claim wording: "mean price"). -/
def priceMean (l : List Sale) : ℚ := ((l.map Sale.price).sum) / (l.length : ℚ)

/-- Window size of the trend split: `min(5, floor(n/2))`. -/
def trendWindow (sales : List Sale) : Nat := min 5 (sales.length / 2)

/-- Mean price of the recent half (first `min(5, n/2)` sales). -/
def recentMean (sales : List Sale) : ℚ := priceMean (sales.take (trendWindow sales))

/-- Mean price of the older half (last `min(5, n/2)` sales). -/
def olderMean (sales : List Sale) : ℚ :=
  priceMean (sales.drop (sales.length - trendWindow sales))

/-- Spec-side match score (claim wording): 10 points for each exact match
among player, year and set, 5 for each among card number and manufacturer,
and 2 for each matching boolean attribute. -/
def specMatchScore (t : CardQuery) (c : CardDatabaseEntry) : Int :=
  10 * ((if t.player = some c.player then 1 else 0)
        + (if t.year = some c.year then 1 else 0)
        + (if t.set = some c.set then 1 else 0))
  + 5 * ((if t.cardNumber = some c.cardNumber then 1 else 0)
         + (if t.manufacturer = some c.manufacturer then 1 else 0))
  + 2 * ((if t.isRookie = some c.isRookie then 1 else 0)
         + (if t.isAutograph = some c.isAutograph then 1 else 0))

/-- Verdicts of the providers whose validation promise resolved. -/
def respondedVerdicts (outcomes : List (Except Unit ValidationVerdict)) :
    List ValidationVerdict :=
  outcomes.filterMap (fun o => match o with
    | .ok v => some v
    | .error _ => none)

/-- Sale lists of the providers whose `searchSales` promise resolved. -/
def survivingSales (providers : List ProviderStub) : List (List Sale) :=
  providers.filterMap (fun p => match p.searchSales with
    | .ok s => some s
    | .error _ => none)

/-- Whether a `getMarketData` call returned normally (did not throw). -/
def exceptIsOk (r : Except Unit MarketData) : Bool :=
  match r with
  | .ok _ => true
  | .error _ => false

/-- The aggregate a successful `getMarketData` call returned (the zero
aggregate at time 0 as an irrelevant placeholder for a thrown call). -/
def marketResult (r : Except Unit MarketData) : MarketData :=
  match r with
  | .ok md => md
  | .error _ => zeroAggregate 0

/-! Concrete example inputs used by witnesses and counterexamples. -/

/-- A wrapped function that fails on attempts 1 and 2 and succeeds on 3. -/
def fnEx : Nat → Except Nat Nat := fun k => if k = 3 then .ok 42 else .error k

/-- Ten sales, newest first: the five most recent average $150, the five
oldest average $100. -/
def salesTrendEx : List Sale :=
  [⟨150, 1000, "ebay", "PSA 9", "a"⟩, ⟨150, 999, "ebay", "PSA 9", "b"⟩,
   ⟨150, 998, "ebay", "PSA 9", "c"⟩, ⟨150, 997, "ebay", "PSA 9", "d"⟩,
   ⟨150, 996, "ebay", "PSA 9", "e"⟩, ⟨100, 995, "ebay", "PSA 9", "f"⟩,
   ⟨100, 994, "ebay", "PSA 9", "g"⟩, ⟨100, 993, "ebay", "PSA 9", "h"⟩,
   ⟨100, 992, "ebay", "PSA 9", "i"⟩, ⟨100, 991, "ebay", "PSA 9", "j"⟩]

/-- Three sales, newest first. -/
def salesAnalyzeEx : List Sale :=
  [⟨120, 1000, "ebay", "PSA 9", "a"⟩, ⟨100, 900, "ebay", "PSA 9", "b"⟩,
   ⟨80, 800, "ebay", "PSA 9", "c"⟩]

/-- A lookup target specifying player and year only. -/
def targetEx : CardQuery :=
  { player := some "Mike Trout", year := some 2011, set := none,
    cardNumber := none, manufacturer := none, isRookie := none,
    isAutograph := none }

/-- A candidate matching the target's player and year (score 20). -/
def entryPY : CardDatabaseEntry :=
  { player := "Mike Trout", year := 2011, set := "Topps Update",
    cardNumber := "US175", manufacturer := "Topps", isRookie := true,
    isAutograph := false }

/-- A candidate matching only the target's year (score 10). -/
def entryY : CardDatabaseEntry :=
  { player := "Somebody Else", year := 2011, set := "Topps Update",
    cardNumber := "US1", manufacturer := "Topps", isRookie := true,
    isAutograph := false }

/-! Helper lemmas. -/

theorem CacheMap.find_setKey_self (c : CacheMap) (key : String) (it : CacheItem) :
    (c.setKey key it).find key = some it := by
  induction c with
  | nil => simp [CacheMap.setKey, CacheMap.find]
  | cons hd tl ih =>
    obtain ⟨k, old⟩ := hd
    by_cases hk : k = key <;> simp [CacheMap.setKey, CacheMap.find, hk, ih]

theorem CacheMap.find_eq_none_of_not_mem (c : CacheMap) (key : String)
    (h : key ∉ c.map Prod.fst) : c.find key = none := by
  induction c with
  | nil => simp [CacheMap.find]
  | cons hd tl ih =>
    obtain ⟨k, old⟩ := hd
    simp only [List.map_cons, List.mem_cons] at h
    push_neg at h
    have hk : ¬ k = key := fun hkk => h.1 hkk.symm
    simp [CacheMap.find, hk, ih h.2]

theorem CacheMap.find_deleteKey_self (c : CacheMap) (key : String)
    (hnd : (c.map Prod.fst).Nodup) : (c.deleteKey key).find key = none := by
  induction c with
  | nil => simp [CacheMap.deleteKey, CacheMap.find]
  | cons hd tl ih =>
    obtain ⟨k, old⟩ := hd
    simp only [List.map_cons, List.nodup_cons] at hnd
    by_cases hk : k = key
    · subst hk
      simpa [CacheMap.deleteKey] using
        CacheMap.find_eq_none_of_not_mem tl k hnd.1
    · simp [CacheMap.deleteKey, CacheMap.find, hk, ih hnd.2]

theorem CacheMap.mem_keys_setKey (c : CacheMap) (key x : String) (it : CacheItem)
    (hx : x ∈ (c.setKey key it).map Prod.fst) :
    x ∈ c.map Prod.fst ∨ x = key := by
  induction c with
  | nil => simpa [CacheMap.setKey] using hx
  | cons hd tl ih =>
    obtain ⟨k, old⟩ := hd
    by_cases hk : k = key
    · subst hk
      simp only [CacheMap.setKey, if_pos rfl, List.map_cons] at hx
      exact Or.inl (by simpa using hx)
    · simp only [CacheMap.setKey, hk, if_false, List.map_cons, List.mem_cons] at hx ⊢
      rcases hx with h | h
      · exact Or.inl (Or.inl h)
      · rcases ih h with h' | h'
        · exact Or.inl (Or.inr h')
        · exact Or.inr h'

theorem CacheMap.nodup_keys_setKey (c : CacheMap) (key : String) (it : CacheItem)
    (hnd : (c.map Prod.fst).Nodup) : ((c.setKey key it).map Prod.fst).Nodup := by
  induction c with
  | nil => simp [CacheMap.setKey]
  | cons hd tl ih =>
    obtain ⟨k, old⟩ := hd
    simp only [List.map_cons, List.nodup_cons] at hnd
    by_cases hk : k = key
    · simp only [CacheMap.setKey, hk, if_true, List.map_cons, List.nodup_cons]
      exact ⟨hk ▸ hnd.1, hnd.2⟩
    · simp only [CacheMap.setKey, hk, if_false, List.map_cons, List.nodup_cons]
      refine ⟨fun hmem => ?_, ih hnd.2⟩
      rcases CacheMap.mem_keys_setKey tl key k it hmem with h | h
      · exact hnd.1 h
      · exact hk h

theorem dedupFirst.go_mem (l : List String) :
    ∀ (seen : List String) (x : String),
      x ∈ dedupFirst.go seen l ↔ x ∈ l ∧ x ∉ seen := by
  induction l with
  | nil => intro seen x; simp [dedupFirst.go]
  | cons y ys ih =>
    intro seen x
    by_cases hy : y ∈ seen
    · simp only [dedupFirst.go, if_pos hy, ih, List.mem_cons]
      constructor
      · rintro ⟨hx, hxs⟩; exact ⟨Or.inr hx, hxs⟩
      · rintro ⟨hx | hx, hxs⟩
        · exact absurd (hx ▸ hy) hxs
        · exact ⟨hx, hxs⟩
    · simp only [dedupFirst.go, if_neg hy, List.mem_cons, ih]
      constructor
      · rintro (rfl | ⟨hx, hxs⟩)
        · exact ⟨Or.inl rfl, hy⟩
        · push_neg at hxs
          exact ⟨Or.inr hx, hxs.2⟩
      · rintro ⟨rfl | hx, hxs⟩
        · exact Or.inl rfl
        · by_cases hxy : x = y
          · exact Or.inl hxy
          · exact Or.inr ⟨hx, by simp [hxy, hxs]⟩

theorem dedupFirst.go_nodup (l : List String) :
    ∀ seen : List String, (dedupFirst.go seen l).Nodup := by
  induction l with
  | nil => intro seen; simp [dedupFirst.go]
  | cons y ys ih =>
    intro seen
    by_cases hy : y ∈ seen
    · simpa [dedupFirst.go, hy] using ih seen
    · simp only [dedupFirst.go, if_neg hy, List.nodup_cons]
      refine ⟨fun hmem => ?_, ih (y :: seen)⟩
      rw [dedupFirst.go_mem] at hmem
      exact hmem.2 (List.mem_cons_self y seen)

theorem dedupFirst_mem (l : List String) (x : String) :
    x ∈ dedupFirst l ↔ x ∈ l := by
  simp [dedupFirst, dedupFirst.go_mem]

theorem dedupFirst_nodup (l : List String) : (dedupFirst l).Nodup :=
  dedupFirst.go_nodup l []

theorem pairwise_rel_getLast {α : Type} {r : α → α → Prop} (hrefl : ∀ a, r a a) :
    ∀ (l : List α) (h : l ≠ []), l.Pairwise r → ∀ x ∈ l, r x (l.getLast h) := by
  intro l
  induction l with
  | nil => intro h; exact absurd rfl h
  | cons a t ih =>
    intro h hp x hx
    match t, hp, hx with
    | [], _, hx =>
      simp only [List.mem_singleton] at hx
      subst hx
      exact hrefl x
    | b :: t', hp, hx =>
      rw [List.getLast_cons (by simp : (b :: t') ≠ [])]
      rcases List.mem_cons.mp hx with rfl | hx'
      · exact (List.pairwise_cons.mp hp).1 _ (List.getLast_mem _)
      · exact ih (by simp) (List.pairwise_cons.mp hp).2 x hx'

/-! Claim theorems. -/

/-- C9: for every key, `get` immediately after `set(key, v, ttl)` returns `v`,
and every `get` performed strictly after the entry's expiry time
(set time plus ttl) is a miss and removes the entry from the store. -/
theorem C9_cache_expiry (c : CacheMap) (key : String) (v : JSValue)
    (ttl now later : Int) (httl : 0 ≤ ttl)
    (hnd : (c.map Prod.fst).Nodup) :
    (SimpleCacheManager.get (SimpleCacheManager.set c key v ttl now) key now).1 = some v
    ∧ (now + ttl < later →
        (SimpleCacheManager.get (SimpleCacheManager.set c key v ttl now) key later).1 = none
        ∧ ((SimpleCacheManager.get (SimpleCacheManager.set c key v ttl now) key later).2).find key
            = none) := by
  have hfind := CacheMap.find_setKey_self c key ⟨v, now + ttl⟩
  refine ⟨?_, fun hlater => ⟨?_, ?_⟩⟩
  · simp [SimpleCacheManager.get, SimpleCacheManager.set, hfind,
      show ¬ now > now + ttl by omega]
  · simp [SimpleCacheManager.get, SimpleCacheManager.set, hfind,
      show later > now + ttl by omega]
  · simp only [SimpleCacheManager.get, SimpleCacheManager.set, hfind,
      show later > now + ttl by omega, if_true, if_pos]
    exact CacheMap.find_deleteKey_self _ key
      (CacheMap.nodup_keys_setKey c key ⟨v, now + ttl⟩ hnd)

/-- C9 witness: `set("k", 7, ttl 100)` at time 0, then `get` at time 150 is a
miss. -/
theorem C9_cache_expiry_witness :
    (SimpleCacheManager.get
      (SimpleCacheManager.set [] "k" (.num 7) 100 0) "k" 150).1 = none :=
  ((C9_cache_expiry [] "k" (.num 7) 100 0 150 (by decide) (by simp)).2
    (by decide)).1

/-- C10: `wrap` re-invokes the factory and overwrites the entry whenever the
cached, unexpired value is falsy, and returns the cached value without
invoking the factory exactly when it is truthy. -/
theorem C10_wrap_truthiness (c : CacheMap) (key : String) (fv : JSValue)
    (ttl now : Int) :
    (∀ v, (SimpleCacheManager.get c key now).1 = some v →
       (v.truthy = false →
          SimpleCacheManager.wrap c key fv ttl now
            = (fv, SimpleCacheManager.set (SimpleCacheManager.get c key now).2 key fv ttl now,
                true)
          ∧ ((SimpleCacheManager.wrap c key fv ttl now).2.1).find key
              = some ⟨fv, now + ttl⟩)
       ∧ (v.truthy = true →
          SimpleCacheManager.wrap c key fv ttl now
            = (v, (SimpleCacheManager.get c key now).2, false)))
    ∧ ((SimpleCacheManager.get c key now).1 = none →
        SimpleCacheManager.wrap c key fv ttl now
          = (fv, SimpleCacheManager.set (SimpleCacheManager.get c key now).2 key fv ttl now,
              true))
    ∧ ((SimpleCacheManager.wrap c key fv ttl now).2.2 = false ↔
        ∃ v, (SimpleCacheManager.get c key now).1 = some v ∧ v.truthy = true) := by
  rcases h : (SimpleCacheManager.get c key now).1 with _ | v
  · refine ⟨fun v hv => by simp [h] at hv, fun _ => ?_, ?_⟩
    · simp [SimpleCacheManager.wrap, h,
        CacheMap.find_setKey_self]
    · simp [SimpleCacheManager.wrap, h]
  · refine ⟨fun w hw => ?_, fun hn => by simp at hn, ?_⟩
    · have hvw : v = w := Option.some.inj hw
      subst hvw
      constructor
      · intro htr
        constructor
        · simp [SimpleCacheManager.wrap, h, htr]
        · simp [SimpleCacheManager.wrap, h, htr, SimpleCacheManager.set,
            CacheMap.find_setKey_self]
      · intro htr
        simp [SimpleCacheManager.wrap, h, htr]
    · cases htr : v.truthy
      · simp [SimpleCacheManager.wrap, h, htr]
      · simp [SimpleCacheManager.wrap, h, htr]

/-- C10 witness: a cached falsy value (`0`) makes `wrap` invoke the factory
and overwrite the entry. -/
theorem C10_wrap_truthiness_witness :
    SimpleCacheManager.wrap (SimpleCacheManager.set [] "k" (.num 0) 100 0)
        "k" (.num 5) 100 0
      = (.num 5,
         SimpleCacheManager.set
           (SimpleCacheManager.get
             (SimpleCacheManager.set [] "k" (.num 0) 100 0) "k" 0).2
           "k" (.num 5) 100 0,
         true) :=
  (((C10_wrap_truthiness (SimpleCacheManager.set [] "k" (.num 0) 100 0)
      "k" (.num 5) 100 0).1 (.num 0) (by decide)).1 (by decide)).1

/-- C2: a default `CircuitBreaker` (threshold 5, timeout 60000 ms) starts
closed; a failure increments the counter (recording its time) and a success
resets it, the breaker opening exactly when the counter reaches 5; while open
and less than 60 s past the recorded failure time every call is rejected with
the circuit-open error, without invoking the wrapped function and without
changing the breaker; once 60 s have elapsed the next call goes through
(half-open): success closes the breaker and resets the counter, failure
re-opens it and resets the timer.  `hinv` is the reachability invariant that
a non-closed breaker has at least `threshold` recorded failures; the final
conjunct shows it is preserved, and that no call leaves the breaker parked in
half-open (so only the single transitioning call runs in half-open state). -/
theorem C2_circuitBreaker (cb : CircuitBreaker) (now : Int) (s : Bool)
    (ht : cb.threshold = 5) (hto : cb.timeout = 60000)
    (hinv : cb.state ≠ .closed → 5 ≤ cb.failures) :
    (CircuitBreaker.init.state = .closed ∧ CircuitBreaker.init.failures = 0)
    ∧ (cb.state = .closed →
        ((cb.call now s).1 = .ran s)
        ∧ ((cb.call now true).2.failures = 0 ∧ (cb.call now true).2.state = .closed)
        ∧ ((cb.call now false).2.failures = cb.failures + 1
           ∧ (cb.call now false).2.lastFailTime = now
           ∧ ((cb.call now false).2.state = .opened ↔ 5 ≤ cb.failures + 1)))
    ∧ (cb.state = .opened → now - cb.lastFailTime < 60000 →
        cb.call now s = (.circuitOpenError, cb))
    ∧ (cb.state = .opened → 60000 ≤ now - cb.lastFailTime →
        ((cb.call now s).1 = .ran s)
        ∧ ((cb.call now true).2.state = .closed ∧ (cb.call now true).2.failures = 0)
        ∧ ((cb.call now false).2.state = .opened
           ∧ (cb.call now false).2.lastFailTime = now))
    ∧ ((cb.call now s).2.state ≠ .halfOpen
       ∧ ((cb.call now s).2.state ≠ .closed → 5 ≤ (cb.call now s).2.failures)) := by
  refine ⟨⟨rfl, rfl⟩, ?_, ?_, ?_, ?_⟩
  · intro hc
    refine ⟨?_, ⟨?_, ?_⟩, ?_, ?_, ?_⟩
    · cases s <;>
        simp [CircuitBreaker.call, CircuitBreaker.onSuccess,
          CircuitBreaker.onFailure, hc]
    · simp [CircuitBreaker.call, CircuitBreaker.onSuccess, hc]
    · simp [CircuitBreaker.call, CircuitBreaker.onSuccess, hc]
    · simp [CircuitBreaker.call, CircuitBreaker.onFailure, hc]
    · simp [CircuitBreaker.call, CircuitBreaker.onFailure, hc]
    · have hstate : (cb.call now false).2.state
          = if 5 ≤ cb.failures + 1 then CBState.opened else CBState.closed := by
        simp [CircuitBreaker.call, CircuitBreaker.onFailure, hc, ht]
      rw [hstate]
      split_ifs with hge
      · simp [hge]
      · simp [hge]
  · intro hop hlt
    simp [CircuitBreaker.call, hop, hto, hlt]
  · intro hop hge
    have hnlt : ¬ now - cb.lastFailTime < cb.timeout := by rw [hto]; omega
    have hcond : ¬ (cb.state = CBState.opened ∧ now - cb.lastFailTime < cb.timeout) :=
      fun hand => hnlt hand.2
    have hf : 5 ≤ cb.failures := hinv (by rw [hop]; intro hh; cases hh)
    have hge5 : cb.threshold ≤ cb.failures + 1 := by omega
    refine ⟨?_, ⟨?_, ?_⟩, ?_, ?_⟩
    · cases s <;>
        simp [CircuitBreaker.call, hcond, hnlt, hop, CircuitBreaker.onSuccess,
          CircuitBreaker.onFailure]
    · simp [CircuitBreaker.call, hcond, hnlt, hop, CircuitBreaker.onSuccess]
    · simp [CircuitBreaker.call, hcond, hnlt, hop, CircuitBreaker.onSuccess]
    · simp [CircuitBreaker.call, hcond, hnlt, hop, CircuitBreaker.onFailure, hge5]
    · simp [CircuitBreaker.call, hcond, hnlt, hop, CircuitBreaker.onFailure]
  · by_cases hst : cb.state = CBState.opened
    · by_cases hlt : now - cb.lastFailTime < cb.timeout
      · have he : cb.call now s = (.circuitOpenError, cb) := by
          simp [CircuitBreaker.call, hst, hlt]
        rw [he]
        exact ⟨(by rw [hst]; intro hh; cases hh),
          fun _ => hinv (by rw [hst]; intro hh; cases hh)⟩
      · have hf : 5 ≤ cb.failures := hinv (by rw [hst]; intro hh; cases hh)
        have hge5 : cb.threshold ≤ cb.failures + 1 := by omega
        cases s
        · have he : (cb.call now false).2
              = CircuitBreaker.onFailure { cb with state := CBState.halfOpen } now := by
            simp [CircuitBreaker.call, hst, hlt]
        
          rw [he]
          simp [CircuitBreaker.onFailure, hge5]
          omega
        · have he : (cb.call now true).2
              = CircuitBreaker.onSuccess { cb with state := CBState.halfOpen } := by
            simp [CircuitBreaker.call, hst, hlt]
          rw [he]
          simp [CircuitBreaker.onSuccess]
    · have hcond : ¬ (cb.state = CBState.opened ∧ now - cb.lastFailTime < cb.timeout) :=
        fun hand => hst hand.1
      cases s
      · have he : (cb.call now false).2 = cb.onFailure now := by
          simp [CircuitBreaker.call, hcond, hst]
        rw [he]
        by_cases hge : cb.threshold ≤ cb.failures + 1
        · simp [CircuitBreaker.onFailure, hge]
          omega
        · have hcl : cb.state = CBState.closed := by
            by_contra hncl
            have := hinv hncl
            rw [ht] at hge
            omega
          simp [CircuitBreaker.onFailure, hge, hcl]
      · have he : (cb.call now true).2 = cb.onSuccess := by
          simp [CircuitBreaker.call, hcond, hst]
        rw [he]
        simp [CircuitBreaker.onSuccess]

/-- C2 witness: an open breaker (5 failures at time 0) rejects a call at time
1000 without invoking the wrapped function or changing state. -/
theorem C2_circuitBreaker_witness :
    CircuitBreaker.call
        { threshold := 5, timeout := 60000, failures := 5, lastFailTime := 0,
          state := .opened } 1000 true
      = (.circuitOpenError,
         { threshold := 5, timeout := 60000, failures := 5, lastFailTime := 0,
           state := .opened }) :=
  (C2_circuitBreaker
    { threshold := 5, timeout := 60000, failures := 5, lastFailTime := 0,
      state := .opened } 1000 true rfl rfl (by decide)).2.2.1 rfl (by decide)

/-- Waits and callbacks of the retry loop: starting from attempt `a >= 1`,
the recorded `onRetry` attempts are `a, a+1, ...` (one per wait) and the i-th
wait is `min(delay * factor^(a-1+i), maxDelay)`. -/
theorem retryGo_waits_cbs (fn : Nat → Except Nat α) (opts : RetryOptions) :
    ∀ fuel attempt, 1 ≤ attempt →
      ((retryGo fn opts attempt fuel).retryCallbacks
        = List.range' attempt (retryGo fn opts attempt fuel).waits.length)
      ∧ ∀ i, i < (retryGo fn opts attempt fuel).waits.length →
          ((retryGo fn opts attempt fuel).waits).getD i 0
            = min (opts.delay * opts.factor ^ (attempt - 1 + i)) opts.maxDelay := by
  intro fuel
  induction fuel using Nat.strong_induction_on with
  | _ fuel ih =>
    match fuel with
    | 0 =>
      intro attempt _
      exact ⟨rfl, fun i hi => absurd hi (by simp [retryGo])⟩
    | 1 =>
      intro attempt _
      have hw : (retryGo fn opts attempt 1).waits = [] := by
        rcases h : fn attempt with e | v <;> simp [retryGo, h]
      have hc : (retryGo fn opts attempt 1).retryCallbacks = [] := by
        rcases h : fn attempt with e | v <;> simp [retryGo, h]
      refine ⟨by rw [hw, hc]; rfl, fun i hi => absurd hi (by rw [hw]; simp)⟩
    | f + 2 =>
      intro attempt ha
      rcases h : fn attempt with e | v
      · have hw : (retryGo fn opts attempt (f + 2)).waits
            = min (opts.delay * opts.factor ^ (attempt - 1)) opts.maxDelay
              :: (retryGo fn opts (attempt + 1) (f + 1)).waits := by
          simp [retryGo, h]
        have hc : (retryGo fn opts attempt (f + 2)).retryCallbacks
            = attempt :: (retryGo fn opts (attempt + 1) (f + 1)).retryCallbacks := by
          simp [retryGo, h]
        have hrec := ih (f + 1) (by omega) (attempt + 1) (by omega)
        constructor
        · rw [hc, hw, hrec.1, List.length_cons]
          rfl
        · intro i hi
          rw [hw] at hi ⊢
          match i with
          | 0 => simp
          | j + 1 =>
            simp only [List.getD_cons_succ]
            rw [hrec.2 j (by simpa using hi)]
            have hexp : attempt + 1 - 1 + j = attempt - 1 + (j + 1) := by omega
            rw [hexp]
      · have hw : (retryGo fn opts attempt (f + 2)).waits = [] := by
          simp [retryGo, h]
        have hc : (retryGo fn opts attempt (f + 2)).retryCallbacks = [] := by
          simp [retryGo, h]
        refine ⟨by rw [hw, hc]; rfl, fun i hi => absurd hi (by rw [hw]; simp)⟩

/-- One failed attempt with at least two attempts left recurses. -/
theorem retryGo_skip_failure (fn : Nat → Except Nat α) (opts : RetryOptions)
    (attempt fuel : Nat) (e : Nat) (h : fn attempt = .error e) :
    (retryGo fn opts attempt (fuel + 2)).result
        = (retryGo fn opts (attempt + 1) (fuel + 1)).result
    ∧ (retryGo fn opts attempt (fuel + 2)).invocations
        = (retryGo fn opts (attempt + 1) (fuel + 1)).invocations := by
  simp [retryGo, h]

/-- A successful attempt ends the loop at once. -/
theorem retryGo_ok (fn : Nat → Except Nat α) (opts : RetryOptions)
    (attempt fuel : Nat) (v : α) (h : fn attempt = .ok v) (hf : 1 ≤ fuel) :
    (retryGo fn opts attempt fuel).result = .ok v
    ∧ (retryGo fn opts attempt fuel).invocations = attempt := by
  match fuel, hf with
  | 1, _ => simp [retryGo, h]
  | f + 2, _ => simp [retryGo, h]

/-- Failing every remaining attempt yields the last attempt's error. -/
theorem retryGo_allFail (fn : Nat → Except Nat α) (opts : RetryOptions)
    (es : Nat → Nat) :
    ∀ fuel attempt, 1 ≤ fuel →
      (∀ k, attempt ≤ k → k < attempt + fuel → fn k = .error (es k)) →
      (retryGo fn opts attempt fuel).result = .error (es (attempt + fuel - 1))
      ∧ (retryGo fn opts attempt fuel).invocations = attempt + fuel - 1 := by
  intro fuel
  induction fuel using Nat.strong_induction_on with
  | _ fuel ih =>
    match fuel with
    | 0 => intro attempt h0; omega
    | 1 =>
      intro attempt _ hall
      have h := hall attempt (le_refl _) (by omega)
      simp [retryGo, h]
    | f + 2 =>
      intro attempt _ hall
      have h := hall attempt (le_refl _) (by omega)
      have hrec := ih (f + 1) (by omega) (attempt + 1) (by omega)
        (fun k hk1 hk2 => hall k (by omega) (by omega))
      have hidx : attempt + 1 + (f + 1) - 1 = attempt + (f + 2) - 1 := by omega
      rw [hidx] at hrec
      constructor
      · rw [(retryGo_skip_failure fn opts attempt f (es attempt) h).1, hrec.1]
      · rw [(retryGo_skip_failure fn opts attempt f (es attempt) h).2, hrec.2]

/-- C5: for a `retry` run, the i-th recorded wait (the wait before the
(i+1)-th retry) is `min(delay * factor^i, maxDelay)` and `onRetry` fires once
before each retry (at attempts `1, 2, ...`); with the default 3 attempts, a
function failing twice then succeeding returns the success after exactly
three invocations; failing every attempt re-raises the last attempt's
error. -/
theorem C5_retry :
    (∀ (α : Type) (fn : Nat → Except Nat α) (opts : RetryOptions),
       (retryRun fn opts).retryCallbacks
         = List.range' 1 (retryRun fn opts).waits.length
       ∧ ∀ i, i < (retryRun fn opts).waits.length →
           ((retryRun fn opts).waits).getD i 0
             = min (opts.delay * opts.factor ^ i) opts.maxDelay)
    ∧ (∀ (α : Type) (fn : Nat → Except Nat α) (e1 e2 : Nat) (v : α),
       fn 1 = .error e1 → fn 2 = .error e2 → fn 3 = .ok v →
       (retryRun fn {}).result = .ok v ∧ (retryRun fn {}).invocations = 3)
    ∧ (∀ (α : Type) (fn : Nat → Except Nat α) (opts : RetryOptions)
         (es : Nat → Nat),
       1 ≤ opts.attempts →
       (∀ k, 1 ≤ k → k ≤ opts.attempts → fn k = .error (es k)) →
       (retryRun fn opts).result = .error (es opts.attempts)
       ∧ (retryRun fn opts).invocations = opts.attempts) := by
  refine ⟨?_, ?_, ?_⟩
  · intro α fn opts
    have h := retryGo_waits_cbs fn opts opts.attempts 1 (le_refl 1)
    refine ⟨h.1, fun i hi => ?_⟩
    have hh := h.2 i hi
    simpa using hh
  · intro α fn e1 e2 v h1 h2 h3
    have hs1r : (retryGo fn ({} : RetryOptions) 1 3).result
        = (retryGo fn ({} : RetryOptions) 2 2).result :=
      (retryGo_skip_failure fn {} 1 1 e1 h1).1
    have hs1i : (retryGo fn ({} : RetryOptions) 1 3).invocations
        = (retryGo fn ({} : RetryOptions) 2 2).invocations :=
      (retryGo_skip_failure fn {} 1 1 e1 h1).2
    have hs2r : (retryGo fn ({} : RetryOptions) 2 2).result
        = (retryGo fn ({} : RetryOptions) 3 1).result :=
      (retryGo_skip_failure fn {} 2 0 e2 h2).1
    have hs2i : (retryGo fn ({} : RetryOptions) 2 2).invocations
        = (retryGo fn ({} : RetryOptions) 3 1).invocations :=
      (retryGo_skip_failure fn {} 2 0 e2 h2).2
    have ho := retryGo_ok fn ({} : RetryOptions) 3 1 v h3 (le_refl 1)
    constructor
    · show (retryGo fn ({} : RetryOptions) 1 3).result = _
      rw [hs1r, hs2r, ho.1]
    · show (retryGo fn ({} : RetryOptions) 1 3).invocations = _
      rw [hs1i, hs2i, ho.2]
  · intro α fn opts es hat hall
    have h := retryGo_allFail fn opts es opts.attempts 1 hat
      (fun k hk1 hk2 => hall k hk1 (by omega))
    have hidx : 1 + opts.attempts - 1 = opts.attempts := by omega
    rw [hidx] at h
    exact h

/-- C5 witness: a function failing on attempts 1 and 2 and succeeding on 3
returns the success after exactly three invocations. -/
theorem C5_retry_witness :
    (retryRun fnEx {}).result = .ok 42 ∧ (retryRun fnEx {}).invocations = 3 :=
  C5_retry.2.1 Nat fnEx 1 2 42 rfl rfl rfl

/-- One scoring clause agrees with the spec-side formulation. -/
theorem fieldBonus_eq {α : Type} [DecidableEq α] (o : Option α) (v : α) (w : Int) :
    fieldBonus o v w = w * (if o = some v then 1 else 0) := by
  cases o with
  | none => simp [fieldBonus]
  | some p =>
    by_cases h : v = p
    · subst h
      simp [fieldBonus]
    · simp [fieldBonus, h, Ne.symm h]

/-- The running best of the scoring fold is one of the candidates. -/
theorem foldl_best_mem (t : CardQuery) (rest : List CardDatabaseEntry) :
    ∀ c, rest.foldl
        (fun b c' => if matchScore t b < matchScore t c' then c' else b) c
      ∈ c :: rest := by
  induction rest with
  | nil => intro c; simp
  | cons x xs ih =>
    intro c
    simp only [List.foldl_cons]
    have hmem := ih (if matchScore t c < matchScore t x then x else c)
    rcases List.mem_cons.mp hmem with h | h
    · rw [h]
      split
      · exact List.mem_cons_of_mem c (List.mem_cons_self x xs)
      · exact List.mem_cons_self c (x :: xs)
    · exact List.mem_cons_of_mem c (List.mem_cons_of_mem x h)

/-- The running best of the scoring fold has a maximal score. -/
theorem foldl_best_ge (t : CardQuery) (rest : List CardDatabaseEntry) :
    ∀ c, ∀ x ∈ c :: rest,
      matchScore t x ≤ matchScore t (rest.foldl
        (fun b c' => if matchScore t b < matchScore t c' then c' else b) c) := by
  induction rest with
  | nil =>
    intro c x hx
    simp only [List.mem_singleton] at hx
    subst hx
    simp
  | cons y ys ih =>
    intro c x hx
    simp only [List.foldl_cons]
    have hc : matchScore t c
        ≤ matchScore t (if matchScore t c < matchScore t y then y else c) := by
      split
      · omega
      · exact le_refl _
    have hy : matchScore t y
        ≤ matchScore t (if matchScore t c < matchScore t y then y else c) := by
      split
      · exact le_refl _
      · omega
    rcases List.mem_cons.mp hx with rfl | hx'
    · exact le_trans hc (ih _ _ (List.mem_cons_self _ _))
    · rcases List.mem_cons.mp hx' with rfl | hx''
      · exact le_trans hy (ih _ _ (List.mem_cons_self _ _))
      · exact ih _ x (List.mem_cons_of_mem _ hx'')

/-- C4: the match score is the claim's weighted count (10 per strong field,
5 per identifier field, 2 per boolean attribute); `findBestMatch` returns a
maximal-scoring candidate exactly when its score is strictly above 10 and
otherwise reports no match, and a single-provider `lookupCard` returns
exactly that best match. -/
theorem C4_bestMatch (target : CardQuery) (cards : List CardDatabaseEntry) :
    (∀ card, matchScore target card = specMatchScore target card)
    ∧ (∀ c, findBestMatch cards target = some c →
        c ∈ cards ∧ 10 < matchScore target c
        ∧ ∀ c' ∈ cards, matchScore target c' ≤ matchScore target c)
    ∧ (findBestMatch cards target = none ↔
        cards = [] ∨ ∀ c ∈ cards, matchScore target c ≤ 10)
    ∧ lookupCard [Except.ok cards] target = findBestMatch cards target := by
  refine ⟨?_, ?_, ?_, ?_⟩
  · intro card
    simp only [matchScore, specMatchScore, fieldBonus_eq]
    ring
  · intro c hc
    match cards with
    | [] => simp [findBestMatch] at hc
    | c0 :: rest =>
      simp only [findBestMatch] at hc
      split at hc
      · injection hc with hc
        subst hc
        refine ⟨foldl_best_mem target rest c0, by assumption, ?_⟩
        intro c' hc'
        exact foldl_best_ge target rest c0 c' hc'
      · cases hc
  · match cards with
    | [] => simp [findBestMatch]
    | c0 :: rest =>
      simp only [findBestMatch]
      constructor
      · intro hnone
        split at hnone
        · cases hnone
        · refine Or.inr fun c hc => ?_
          have hle := foldl_best_ge target rest c0 c hc
          omega
      · rintro (h | h)
        · cases h
        · have hb := h _ (foldl_best_mem target rest c0)
          split
          · omega
          · rfl
  · cases hb : findBestMatch cards target with
    | none => simp [lookupCard, hb]
    | some m => simp [lookupCard, hb]

/-- C4 witness: a candidate matching player and year (score 20) is accepted
as the best match. -/
theorem C4_bestMatch_witness : 10 < matchScore targetEx entryPY :=
  ((C4_bestMatch targetEx [entryPY]).2.1 entryPY (by decide)).2.1

/-- A nonempty list of positive rationals has a positive sum. -/
theorem list_sum_pos (l : List ℚ) (h : ∀ x ∈ l, 0 < x) (hne : l ≠ []) :
    0 < l.sum := by
  induction l with
  | nil => exact absurd rfl hne
  | cons x xs ih =>
    have hx := h x (List.mem_cons_self _ _)
    rcases eq_or_ne xs [] with rfl | hxs
    · simpa using hx
    · have hs := ih (fun y hy => h y (List.mem_cons_of_mem _ hy)) hxs
      simp only [List.sum_cons]
      exact add_pos hx hs

/-- Summed confidences of the caught verdicts equal those of the verdicts of
the providers that responded (a caught rejection contributes 0). -/
theorem caught_conf_sum (outcomes : List (Except Unit ValidationVerdict)) :
    ((outcomes.map caughtVerdict).map ValidationVerdict.confidence).sum
      = ((respondedVerdicts outcomes).map ValidationVerdict.confidence).sum := by
  induction outcomes with
  | nil => rfl
  | cons o os ih =>
    cases o with
    | ok v =>
      have hr : respondedVerdicts (Except.ok v :: os) = v :: respondedVerdicts os := by
        simp [respondedVerdicts]
      rw [hr, List.map_cons, List.map_cons, List.sum_cons, List.map_cons,
        List.sum_cons, ih]
      rfl
    | error e =>
      have hr : respondedVerdicts (Except.error e :: os) = respondedVerdicts os := by
        simp [respondedVerdicts]
      rw [hr, List.map_cons, List.map_cons, List.sum_cons, ih]
      simp [caughtVerdict, defaultVerdict]

/-- A caught verdict is valid iff some responding provider's verdict is. -/
theorem caught_isValid (outcomes : List (Except Unit ValidationVerdict)) :
    (∃ v ∈ outcomes.map caughtVerdict, v.isValid = true)
      ↔ ∃ v, Except.ok v ∈ outcomes ∧ v.isValid = true := by
  induction outcomes with
  | nil => simp
  | cons o os ih =>
    cases o with
    | ok v =>
      simp only [List.map_cons, List.mem_cons, caughtVerdict]
      constructor
      · rintro ⟨w, hw | hw, hv⟩
        · exact ⟨w, Or.inl (by rw [hw]), hv⟩
        · rcases ih.mp ⟨w, hw, hv⟩ with ⟨u, hu, hvu⟩
          exact ⟨u, Or.inr hu, hvu⟩
      · rintro ⟨w, hw | hw, hv⟩
        · injection hw with hw
          exact ⟨w, Or.inl (by rw [hw]), hv⟩
        · rcases ih.mpr ⟨w, hw, hv⟩ with ⟨u, hu, hvu⟩
          exact ⟨u, Or.inr hu, hvu⟩
    | error e =>
      simp only [List.map_cons, List.mem_cons, caughtVerdict]
      constructor
      · rintro ⟨w, hw | hw, hv⟩
        · rw [hw] at hv
          simp [defaultVerdict] at hv
        · rcases ih.mp ⟨w, hw, hv⟩ with ⟨u, hu, hvu⟩
          exact ⟨u, Or.inr hu, hvu⟩
      · rintro ⟨w, hw | hw, hv⟩
        · cases hw
        · rcases ih.mpr ⟨w, hw, hv⟩ with ⟨u, hu, hvu⟩
          exact ⟨u, Or.inr hu, hvu⟩

/-- An issue string appears among the caught verdicts' flattened issues iff
some responding provider reported it. -/
theorem caught_issues_mem (outcomes : List (Except Unit ValidationVerdict))
    (i : String) :
    (i ∈ ((outcomes.map caughtVerdict).map ValidationVerdict.issues).flatten)
      ↔ ∃ v, Except.ok v ∈ outcomes ∧ i ∈ v.issues := by
  induction outcomes with
  | nil => simp
  | cons o os ih =>
    cases o with
    | ok v =>
      simp only [List.map_cons, List.flatten_cons, List.mem_append, ih,
        caughtVerdict, List.mem_cons]
      constructor
      · rintro (hi | ⟨u, hu, hiu⟩)
        · exact ⟨v, Or.inl rfl, hi⟩
        · exact ⟨u, Or.inr hu, hiu⟩
      · rintro ⟨u, hu | hu, hiu⟩
        · injection hu with hu
          subst hu
          exact Or.inl hiu
        · exact Or.inr ⟨u, hu, hiu⟩
    | error e =>
      simp only [List.map_cons, List.flatten_cons, List.mem_append, ih,
        caughtVerdict, defaultVerdict, List.mem_cons]
      constructor
      · rintro (hi | ⟨u, hu, hiu⟩)
        · simp at hi
        · exact ⟨u, Or.inr hu, hiu⟩
      · rintro ⟨u, hu | hu, hiu⟩
        · cases hu
        · exact Or.inr ⟨u, hu, hiu⟩

/-- C7 counterexample: with two registered providers of which one responds
(valid, confidence 80) and one fails, the aggregated confidence is 40 — the
sum divided by the number of registered providers — not 80, the mean of the
confidences of the providers that responded. -/
theorem C7_confidence_cex :
    (validateCard [Except.ok ⟨true, 80, []⟩, Except.error ()]).confidence = 40
    ∧ (validateCard [Except.ok ⟨true, 80, []⟩, Except.error ()]).confidence
        ≠ 80 := by
  constructor <;> norm_num [validateCard, caughtVerdict, defaultVerdict]

/-- C7 (amended): the aggregate is valid iff some responding provider's
verdict is valid; the confidence is the sum of the responding providers'
confidences divided by the number of registered providers (a failed provider
contributes 0); the issues are the deduplicated union of the responding
providers' issues. -/
theorem C7_validateCard (outcomes : List (Except Unit ValidationVerdict))
    (hne : outcomes ≠ []) :
    ((validateCard outcomes).isValid = true ↔
      ∃ v, Except.ok v ∈ outcomes ∧ v.isValid = true)
    ∧ (validateCard outcomes).confidence
        = ((respondedVerdicts outcomes).map ValidationVerdict.confidence).sum
            / (outcomes.length : ℚ)
    ∧ (∀ i, i ∈ (validateCard outcomes).issues ↔
        ∃ v, Except.ok v ∈ outcomes ∧ i ∈ v.issues)
    ∧ (validateCard outcomes).issues.Nodup := by
  refine ⟨?_, ?_, ?_, ?_⟩
  · have hval : (validateCard outcomes).isValid
        = decide (0 < ((outcomes.map caughtVerdict).filter
            (fun v => v.isValid)).length) := by
      simp [validateCard]
    rw [hval, decide_eq_true_eq, ← caught_isValid outcomes]
    constructor
    · intro hpos
      rcases List.exists_mem_of_length_pos hpos with ⟨v, hv⟩
      rcases List.mem_filter.mp hv with ⟨hv1, hv2⟩
      exact ⟨v, hv1, by simpa using hv2⟩
    · rintro ⟨v, hv, hvalid⟩
      have : v ∈ (outcomes.map caughtVerdict).filter (fun v => v.isValid) :=
        List.mem_filter.mpr ⟨hv, by simpa using hvalid⟩
      exact List.length_pos.mpr (List.ne_nil_of_mem this)
  · have hconf : (validateCard outcomes).confidence
        = ((outcomes.map caughtVerdict).map ValidationVerdict.confidence).sum
            / (outcomes.length : ℚ) := by
      simp [validateCard]
    rw [hconf, caught_conf_sum]
  · intro i
    have hiss : (validateCard outcomes).issues
        = dedupFirst ((outcomes.map caughtVerdict).map
            ValidationVerdict.issues).flatten := by
      simp [validateCard]
    rw [hiss, dedupFirst_mem, caught_issues_mem]
  · have hiss : (validateCard outcomes).issues
        = dedupFirst ((outcomes.map caughtVerdict).map
            ValidationVerdict.issues).flatten := by
      simp [validateCard]
    rw [hiss]
    exact dedupFirst_nodup _

/-- C7 witness: one valid responding provider with confidence 80 and one
failed provider give an aggregate confidence of 80/2 = 40. -/
theorem C7_validateCard_witness :
    (validateCard [Except.ok ⟨true, 80, []⟩, Except.error ()]).confidence
      = ((respondedVerdicts [Except.ok ⟨true, 80, []⟩,
            Except.error ()]).map ValidationVerdict.confidence).sum
        / (([Except.ok ⟨true, 80, []⟩,
            Except.error ()] : List (Except Unit ValidationVerdict)).length : ℚ) :=
  (C7_validateCard [Except.ok ⟨true, 80, []⟩, Except.error ()] (by simp)).2.1

/-- C3: with fewer than 5 sales the trend is stable; otherwise, over strictly
positive prices, the trend is rising exactly when the recent half's mean
exceeds 1.1 times the older half's mean, falling exactly when it is below
0.9 times it, and stable otherwise. -/
theorem C3_trend (sales : List Sale) (hpos : ∀ s ∈ sales, 0 < s.price) :
    (sales.length < 5 → calculateTrend sales = .stable)
    ∧ (5 ≤ sales.length →
        ((calculateTrend sales = .rising ↔
            olderMean sales * (11/10) < recentMean sales)
         ∧ (calculateTrend sales = .falling ↔
            recentMean sales < olderMean sales * (9/10))
         ∧ (calculateTrend sales = .stable ↔
            (recentMean sales ≤ olderMean sales * (11/10)
             ∧ olderMean sales * (9/10) ≤ recentMean sales)))) := by
  constructor
  · intro h
    simp [calculateTrend, h]
  · intro h5
    have hn5 : ¬ sales.length < 5 := by omega
    set k := min 5 (sales.length / 2) with hk
    have hk2 : 2 ≤ k := le_min (by norm_num) (by omega)
    have hkle : k ≤ sales.length :=
      le_trans (min_le_right _ _) (Nat.div_le_self _ _)
    have hlt : (sales.take k).length = k := by
      rw [List.length_take]
      exact min_eq_left hkle
    have hld : (sales.drop (sales.length - k)).length = k := by
      rw [List.length_drop]
      exact Nat.sub_sub_self hkle
    have hkQ : (0 : ℚ) < (k : ℚ) := by
      exact_mod_cast Nat.lt_of_lt_of_le (by norm_num) hk2
    have hrm : recentMean sales
        = ((sales.take k).map Sale.price).sum / (k : ℚ) := by
      rw [recentMean, priceMean, trendWindow, ← hk, hlt]
    have hom : olderMean sales
        = ((sales.drop (sales.length - k)).map Sale.price).sum / (k : ℚ) := by
      rw [olderMean, priceMean, trendWindow, ← hk, hld]
    have holder_ne : (sales.drop (sales.length - k)).map Sale.price ≠ [] := by
      intro h0
      have hzero := congrArg List.length h0
      simp only [List.length_map, hld] at hzero
      exact absurd (hzero ▸ hk2) (by norm_num)
    have hsum : 0 < ((sales.drop (sales.length - k)).map Sale.price).sum := by
      refine list_sum_pos _ (fun x hx => ?_) holder_ne
      rcases List.mem_map.mp hx with ⟨s, hs, rfl⟩
      exact hpos s (List.mem_of_mem_drop hs)
    have ho : 0 < olderMean sales := by
      rw [hom]
      exact div_pos hsum hkQ
    have hiff1 : (((recentMean sales - olderMean sales) / olderMean sales) * 100 > 10)
        ↔ olderMean sales * (11/10) < recentMean sales := by
      rw [gt_iff_lt, div_mul_eq_mul_div, lt_div_iff ho]
      constructor <;> intro hx <;> nlinarith
    have hiff2 : (((recentMean sales - olderMean sales) / olderMean sales) * 100 < -10)
        ↔ recentMean sales < olderMean sales * (9/10) := by
      rw [div_mul_eq_mul_div, div_lt_iff ho]
      constructor <;> intro hx <;> nlinarith
    have hct : calculateTrend sales
        = (if ((recentMean sales - olderMean sales) / olderMean sales) * 100 > 10
            then Trend.rising
            else if ((recentMean sales - olderMean sales) / olderMean sales) * 100 < -10
              then Trend.falling else Trend.stable) := by
      rw [hrm, hom]
      simp only [calculateTrend, if_neg hn5, ← hk]
    rw [hct]
    split_ifs with h1 h2
    · refine ⟨by simpa using hiff1.mp h1, ?_, ?_⟩
      · have hgt := hiff1.mp h1
        simp only [show (Trend.rising = Trend.falling) = False by simp, false_iff]
        intro hcon
        nlinarith
      · have hgt := hiff1.mp h1
        simp only [show (Trend.rising = Trend.stable) = False by simp, false_iff]
        intro hcon
        nlinarith [hcon.1]
    · have hlt2 := hiff2.mp h2
      refine ⟨?_, by simpa using hlt2, ?_⟩
      · simp only [show (Trend.falling = Trend.rising) = False by simp, false_iff]
        intro hcon
        nlinarith
      · simp only [show (Trend.falling = Trend.stable) = False by simp, false_iff]
        intro hcon
        nlinarith [hcon.2]
    · have hle1 : recentMean sales ≤ olderMean sales * (11/10) := by
        by_contra hcon
        exact h1 (hiff1.mpr (not_le.mp hcon))
      have hle2 : olderMean sales * (9/10) ≤ recentMean sales := by
        by_contra hcon
        exact h2 (hiff2.mpr (not_le.mp hcon))
      refine ⟨?_, ?_, by simpa using ⟨hle1, hle2⟩⟩
      · simp only [show (Trend.stable = Trend.rising) = False by simp, false_iff]
        intro hcon
        nlinarith
      · simp only [show (Trend.stable = Trend.falling) = False by simp, false_iff]
        intro hcon
        nlinarith

/-- C3 witness: ten sales whose five most recent average 150 and five oldest
average 100 classify as rising. -/
theorem C3_trend_witness : calculateTrend salesTrendEx = .rising :=
  ((C3_trend salesTrendEx (by decide)).2 (by decide)).1.mpr
    (by norm_num [recentMean, olderMean, priceMean, trendWindow, salesTrendEx])

/-- C8: on a nonempty newest-first sale list the aggregate consists of the
first 20 sales, the rounded mean price, the middle element of any price-sorted
arrangement, the minimum and maximum price, and the rounded monthly velocity
over the days back to the oldest sale. -/
theorem C8_analyze (sales : List Sale) (names : List String) (now : Int)
    (hne : sales ≠ []) (hsort : List.Sorted Sale.newerEq sales) :
    (analyzeMarketData sales names now).recentSales = sales.take 20
    ∧ (analyzeMarketData sales names now).averagePrice
        = jsRound ((sales.map Sale.price).sum / (sales.length : ℚ))
    ∧ (∀ l : List ℚ, l.Perm (sales.map Sale.price) → l.Sorted (· ≤ ·) →
        (analyzeMarketData sales names now).medianPrice
          = l.getD (sales.length / 2) 0)
    ∧ ((analyzeMarketData sales names now).priceRangeMin ∈ sales.map Sale.price
       ∧ ∀ p ∈ sales.map Sale.price,
           (analyzeMarketData sales names now).priceRangeMin ≤ p)
    ∧ ((analyzeMarketData sales names now).priceRangeMax ∈ sales.map Sale.price
       ∧ ∀ p ∈ sales.map Sale.price,
           p ≤ (analyzeMarketData sales names now).priceRangeMax)
    ∧ (∃ oldest, oldest ∈ sales ∧ (∀ s ∈ sales, oldest.date ≤ s.date)
       ∧ (analyzeMarketData sales names now).velocity
           = jsRound (((sales.length : ℚ)
               / max 1 (((now - oldest.date : Int) : ℚ) / 86400000)) * 30)) := by
  have hperm : (List.insertionSort (· ≤ ·) (sales.map Sale.price)).Perm
      (sales.map Sale.price) := List.perm_insertionSort _ _
  have hsorted : (List.insertionSort (· ≤ ·) (sales.map Sale.price)).Sorted (· ≤ ·) :=
    List.sorted_insertionSort _ _
  have hlen : (List.insertionSort (· ≤ ·) (sales.map Sale.price)).length
      = sales.length := by
    rw [hperm.length_eq, List.length_map]
  have hpne : List.insertionSort (· ≤ ·) (sales.map Sale.price) ≠ [] := by
    intro h0
    have := congrArg List.length h0
    rw [hlen] at this
    simp only [List.length_nil] at this
    exact hne (List.length_eq_zero.mp this)
  refine ⟨?_, ?_, ?_, ⟨?_, ?_⟩, ⟨?_, ?_⟩, ?_⟩
  · simp [analyzeMarketData, dif_neg hne]
  · simp only [analyzeMarketData, dif_neg hne]
    rw [hperm.sum_eq, hlen]
  · intro l hpl hsl
    have hleq : l = List.insertionSort (· ≤ ·) (sales.map Sale.price) :=
      List.eq_of_perm_of_sorted (hpl.trans hperm.symm) hsl hsorted
    subst hleq
    simp only [analyzeMarketData, dif_neg hne]
    rw [hlen]
  · simp only [analyzeMarketData, dif_neg hne]
    match hP : List.insertionSort (· ≤ ·) (sales.map Sale.price), hpne with
    | p0 :: rest, _ =>
      simp only [List.getD_cons_zero]
      exact hperm.mem_iff.mp (hP ▸ List.mem_cons_self p0 rest)
  · simp only [analyzeMarketData, dif_neg hne]
    intro p hp
    have hp' : p ∈ List.insertionSort (· ≤ ·) (sales.map Sale.price) :=
      hperm.mem_iff.mpr hp
    match hP : List.insertionSort (· ≤ ·) (sales.map Sale.price), hpne, hsorted with
    | p0 :: rest, _, hs =>
      rw [hP] at hp'
      simp only [List.getD_cons_zero]
      rcases List.mem_cons.mp hp' with rfl | hmem
      · exact le_refl p
      · exact List.rel_of_sorted_cons hs p hmem
  · simp only [analyzeMarketData, dif_neg hne]
    have hgl : (List.insertionSort (· ≤ ·) (sales.map Sale.price)).getD
        ((List.insertionSort (· ≤ ·) (sales.map Sale.price)).length - 1) 0
        = (List.insertionSort (· ≤ ·) (sales.map Sale.price)).getLast hpne := by
      rw [List.getLast_eq_get, List.getD_eq_get]
    rw [hgl]
    exact hperm.mem_iff.mp (List.getLast_mem hpne)
  · simp only [analyzeMarketData, dif_neg hne]
    intro p hp
    have hgl : (List.insertionSort (· ≤ ·) (sales.map Sale.price)).getD
        ((List.insertionSort (· ≤ ·) (sales.map Sale.price)).length - 1) 0
        = (List.insertionSort (· ≤ ·) (sales.map Sale.price)).getLast hpne := by
      rw [List.getLast_eq_get, List.getD_eq_get]
    rw [hgl]
    exact pairwise_rel_getLast (r := (· ≤ ·)) (fun a => le_refl a) _ hpne
      hsorted p (hperm.mem_iff.mpr hp)
  · refine ⟨sales.getLast hne, List.getLast_mem hne, ?_, ?_⟩
    · intro s hs
      exact pairwise_rel_getLast (r := Sale.newerEq) (fun a => le_refl a.date)
        sales hne hsort s hs
    · simp only [analyzeMarketData, dif_neg hne]

/-- A sale list is in `survivingSales` iff some provider resolved with it. -/
theorem mem_survivingSales (providers : List ProviderStub) (l : List Sale) :
    l ∈ survivingSales providers ↔
      ∃ p ∈ providers, p.searchSales = Except.ok l := by
  induction providers with
  | nil => simp [survivingSales]
  | cons p ps ih =>
    cases hps : p.searchSales with
    | ok s =>
      simp only [survivingSales, List.filterMap_cons, hps, List.mem_cons] at ih ⊢
      constructor
      · rintro (rfl | hmem)
        · exact ⟨p, Or.inl rfl, hps⟩
        · rcases ih.mp hmem with ⟨q, hq, hql⟩
          exact ⟨q, Or.inr hq, hql⟩
      · rintro ⟨q, rfl | hq, hql⟩
        · rw [hps] at hql
          injection hql with hql
          exact Or.inl hql.symm
        · exact Or.inr (ih.mpr ⟨q, hq, hql⟩)
    | error e =>
      simp only [survivingSales, List.filterMap_cons, hps, List.mem_cons] at ih ⊢
      constructor
      · intro hmem
        rcases ih.mp hmem with ⟨q, hq, hql⟩
        exact ⟨q, Or.inr hq, hql⟩
      · rintro ⟨q, rfl | hq, hql⟩
        · rw [hps] at hql
          cases hql
        · exact ih.mpr ⟨q, hq, hql⟩

/-- The flattened caught sale arrays are the flattened surviving arrays: a
failed provider contributes nothing. -/
theorem caughtSales_flatten (providers : List ProviderStub) :
    (providers.map caughtSales).flatten = (survivingSales providers).flatten := by
  induction providers with
  | nil => rfl
  | cons p ps ih =>
    cases hps : p.searchSales with
    | ok s =>
      simp [List.map_cons, List.flatten_cons, survivingSales,
        List.filterMap_cons, hps, caughtSales, ih]
    | error e =>
      simp [List.map_cons, List.flatten_cons, survivingSales,
        List.filterMap_cons, hps, caughtSales, ih]

/-- Every sale of a computed aggregate's `recentSales` is one of the merged
input sales. -/
theorem analyze_recentSales_mem (sales : List Sale) (names : List String)
    (now : Int) :
    ∀ s ∈ (analyzeMarketData sales names now).recentSales, s ∈ sales := by
  intro s hs
  by_cases hne : sales = []
  · subst hne
    simp [analyzeMarketData, zeroAggregate] at hs
  · simp only [analyzeMarketData, dif_neg hne] at hs
    exact List.take_subset 20 sales hs

/-- C1 counterexample: with provider "ebay" failing and provider "psa"
returning one sale, `getMarketData` returns normally and the aggregate is
built from the surviving sale, but `dataSource` is "ebay, psa" — it names the
failed provider too, not only the surviving provider "psa". -/
theorem C1_dataSource_cex :
    exceptIsOk (getMarketData
        [⟨"ebay", Except.error ()⟩,
         ⟨"psa", Except.ok [⟨100, 500, "psa", "PSA 9", "x"⟩]⟩] none 500) = true
    ∧ (marketResult (getMarketData
        [⟨"ebay", Except.error ()⟩,
         ⟨"psa", Except.ok [⟨100, 500, "psa", "PSA 9", "x"⟩]⟩] none 500)).recentSales
      = [⟨100, 500, "psa", "PSA 9", "x"⟩]
    ∧ (marketResult (getMarketData
        [⟨"ebay", Except.error ()⟩,
         ⟨"psa", Except.ok [⟨100, 500, "psa", "PSA 9", "x"⟩]⟩] none 500)).dataSource
      = "ebay, psa"
    ∧ "ebay, psa" ≠ "psa" := by
  refine ⟨rfl, rfl, rfl, by decide⟩

/-- C1 (amended): when at least one provider returns a non-empty sale list,
`getMarketData` throws no exception, the aggregate is computed from exactly
the surviving providers' merged sales (every reported sale comes from a
provider that resolved), and `dataSource` is the comma-joined list of ALL
registered provider names, contributing or not. -/
theorem C1_degradation (providers : List ProviderStub) (now : Int)
    (hok : ∃ p ∈ providers, ∃ s, p.searchSales = Except.ok s ∧ s ≠ []) :
    exceptIsOk (getMarketData providers none now) = true
    ∧ marketResult (getMarketData providers none now)
        = analyzeMarketData
            (List.insertionSort Sale.newerEq (survivingSales providers).flatten)
            (providers.map ProviderStub.name) now
    ∧ (∀ s ∈ (marketResult (getMarketData providers none now)).recentSales,
        ∃ p ∈ providers, ∃ l, p.searchSales = Except.ok l ∧ s ∈ l)
    ∧ (marketResult (getMarketData providers none now)).dataSource
        = String.intercalate ", " (providers.map ProviderStub.name) := by
  have hres : getMarketData providers none now
      = Except.ok (analyzeMarketData
          (List.insertionSort Sale.newerEq (survivingSales providers).flatten)
          (providers.map ProviderStub.name) now) := by
    simp only [getMarketData, caughtSales_flatten]
  refine ⟨by rw [hres]; rfl, by rw [hres]; rfl, ?_, ?_⟩
  · intro s hs
    rw [hres] at hs
    have hs1 : s ∈ List.insertionSort Sale.newerEq
        (survivingSales providers).flatten :=
      analyze_recentSales_mem _ _ _ s (by exact hs)
    have hs2 : s ∈ (survivingSales providers).flatten :=
      (List.perm_insertionSort _ _).mem_iff.mp hs1
    rcases List.mem_flatten.mp hs2 with ⟨l, hl, hsl⟩
    rcases (mem_survivingSales providers l).mp hl with ⟨p, hp, hpl⟩
    exact ⟨p, hp, l, hpl, hsl⟩
  · rcases hok with ⟨p, hp, s, hps, hsne⟩
    have hls : s ∈ survivingSales providers :=
      (mem_survivingSales providers s).mpr ⟨p, hp, hps⟩
    rcases List.exists_mem_of_ne_nil s hsne with ⟨x, hx⟩
    have hxf : x ∈ (survivingSales providers).flatten :=
      List.mem_flatten.mpr ⟨s, hls, hx⟩
    have hmne : List.insertionSort Sale.newerEq
        (survivingSales providers).flatten ≠ [] := by
      intro h0
      have : x ∈ ([] : List Sale) := by
        rw [← h0]
        exact (List.perm_insertionSort _ _).mem_iff.mpr hxf
      cases this
    rw [hres]
    show (analyzeMarketData _ _ _).dataSource = _
    simp only [analyzeMarketData, dif_neg hmne]

/-- C1 witness for the amended claim: with "ebay" failed and "psa" surviving,
`dataSource` is the joined list of both registered provider names. -/
theorem C1_degradation_witness :
    (marketResult (getMarketData
        [⟨"ebay", Except.error ()⟩,
         ⟨"psa", Except.ok [⟨100, 500, "psa", "PSA 9", "x"⟩]⟩] none 500)).dataSource
      = String.intercalate ", "
          (List.map ProviderStub.name
            [⟨"ebay", Except.error ()⟩,
             ⟨"psa", Except.ok [⟨100, 500, "psa", "PSA 9", "x"⟩]⟩]) :=
  (C1_degradation
    [⟨"ebay", Except.error ()⟩,
     ⟨"psa", Except.ok [⟨100, 500, "psa", "PSA 9", "x"⟩]⟩] 500
    ⟨⟨"psa", Except.ok [⟨100, 500, "psa", "PSA 9", "x"⟩]⟩,
      by simp, [⟨100, 500, "psa", "PSA 9", "x"⟩], rfl, by simp⟩).2.2.2

/-- C6 counterexample: with every provider failing and no cached value,
`getMarketData` does not raise any error — it returns the zero-valued
aggregate. -/
theorem C6_exhausted_cex :
    getMarketData [⟨"ebay", Except.error ()⟩, ⟨"psa", Except.error ()⟩]
        none 777
      = Except.ok (zeroAggregate 777) := by
  rfl

/-- C6 (amended): `getMarketData` never propagates an exception: when every
provider fails and there is no cached value it returns the zero-valued
aggregate, and in every case the caller receives an aggregate. -/
theorem C6_exhausted (providers : List ProviderStub) (now : Int)
    (hall : ∀ p ∈ providers, p.searchSales = Except.error ()) :
    getMarketData providers none now = Except.ok (zeroAggregate now)
    ∧ ∀ cached, exceptIsOk (getMarketData providers cached now) = true := by
  constructor
  · have hflat : ∀ ps : List ProviderStub,
        (∀ p ∈ ps, p.searchSales = Except.error ()) →
        (ps.map caughtSales).flatten = [] := by
      intro ps
      induction ps with
      | nil => intro _; rfl
      | cons p pss ih =>
        intro h
        have hp := h p (List.mem_cons_self _ _)
        simp [caughtSales, hp,
          ih (fun q hq => h q (List.mem_cons_of_mem _ hq))]
    have h0 := hflat providers hall
    simp only [getMarketData, h0]
    rfl
  · intro cached
    cases cached <;> rfl

/-- C6 witness for the amended claim: one failed provider and a cache miss
yield the zero-valued aggregate, not an exception. -/
theorem C6_exhausted_witness :
    getMarketData [⟨"ebay", Except.error ()⟩] none 999
      = Except.ok (zeroAggregate 999) :=
  (C6_exhausted [⟨"ebay", Except.error ()⟩] 999
    (by intro p hp; rw [List.mem_singleton] at hp; subst hp; rfl)).1

/-- C8 witness: three sales at 120, 100, 80 (newest first) average to a
rounded mean of 100. -/
theorem C8_analyze_witness :
    (analyzeMarketData salesAnalyzeEx ["ebay"] 1000).averagePrice
      = jsRound ((salesAnalyzeEx.map Sale.price).sum
          / (salesAnalyzeEx.length : ℚ)) :=
  (C8_analyze salesAnalyzeEx ["ebay"] 1000 (by decide)
    (by simp [salesAnalyzeEx, List.Sorted, List.pairwise_cons,
      Sale.newerEq])).2.1
